import Mathlib

set_option maxRecDepth 10000

/- Verification of the Z Framework experimental prime generator
   (src/zframework.cpp together with include/primesieve/zframework.h).

   Modelling conventions:
   * uint64/uint32/size_t arithmetic is modelled by ℕ (no claim exercises
     wrap-around, all quantities stay far below 2^64);
   * C doubles are modelled by ℝ, double constants by the exact values of
     their decimal literals from the header;
   * (uint64_t)std::sqrt(x) on the integer magnitudes that occur here is
     the integer square root, modelled by Nat.sqrt; (uint64_t)std::log(x)
     for x ≥ 1 is modelled by ⌊Real.log x⌋₊;
   * the single double comparison that feeds back into the sieve's control
     flow — the density test `density < k * 0.1` of sieve_frame — is
     abstracted into a Boolean parameter dl ("density low") carried by the
     pipeline; its real-number specification is density_clears below, and
     theorems relate the two through the soundness hypothesis dl_sound;
   * malloc is assumed to succeed; C undefined behaviour (division by zero
     in zframework_generate_primes) is modelled by returning none. -/

/- Constants from include/primesieve/zframework.h lines 25-30. -/

noncomputable def ZFRAMEWORK_GOLDEN_RATIO : ℝ := 1.6180339887498948482

noncomputable def ZFRAMEWORK_E2 : ℝ := 7.38905609893065022723

noncomputable def ZFRAMEWORK_CURVATURE_K : ℝ := 0.3

def ZFRAMEWORK_MAX_FRAMES : ℕ := 32

/- Residue classes for wheel factorization mod 30 (zframework.cpp line 31). -/
def residue_classes_30 : List ℕ := [1, 7, 11, 13, 17, 19, 23, 29]

/- is_valid_residue (zframework.cpp lines 65-73): membership of n % 30 in
   the residue table, by linear scan. -/
def is_valid_residue (n : ℕ) : Bool := residue_classes_30.contains (n % 30)

/- zframework_density (zframework.cpp lines 355-369). -/
open scoped Classical in
noncomputable def zframework_density (n : ℕ) (frame_factor density_boost : ℝ) : ℝ :=
  if n ≤ 1 then 0
  else
    let x : ℝ := (n : ℝ) / ZFRAMEWORK_GOLDEN_RATIO
    let x := if x ≤ 1 then 2 else x
    let log_x := Real.log x
    let log_x := if log_x ≤ 0 then 1 else log_x
    1 / (log_x * frame_factor * density_boost)

/- apply_geometric_transform (zframework.cpp lines 54-60), with the globals
   g_curvature_k and g_density_boost passed explicitly as k, density_boost. -/
noncomputable def apply_geometric_transform (k density_boost : ℝ) (n frame_offset : ℕ) : ℝ :=
  zframework_density n (1 + k * Real.cos (frame_offset * Real.pi / ZFRAMEWORK_GOLDEN_RATIO))
    density_boost

/- The density test of sieve_frame (zframework.cpp lines 147-152): the
   post-filter clears the flag of n when this real comparison holds. -/
def density_clears (k density_boost : ℝ) (frame_offset n : ℕ) : Prop :=
  apply_geometric_transform k density_boost n frame_offset < k * 0.1

/- dl is a sound abstraction of the density test at the default parameters
   (g_curvature_k = 0.3, g_density_boost = golden ratio, frame_shift = 0):
   it reports "density low" only when the real comparison holds. -/
def dl_sound (dl : ℕ → Bool) : Prop :=
  ∀ n, dl n = true → density_clears ZFRAMEWORK_CURVATURE_K ZFRAMEWORK_GOLDEN_RATIO 0 n

/- The dl of a build whose density test never fires. -/
def density_never_low : ℕ → Bool := fun _ => false

/- count_divisors (zframework.cpp lines 310-327): trial division up to
   (uint64_t)std::sqrt(n), counting the cofactor separately when distinct. -/
def count_divisors (n : ℕ) : ℕ :=
  if n = 0 then 0
  else if n = 1 then 1
  else ∑ i ∈ Finset.Icc 1 (Nat.sqrt n), (if n % i = 0 then (if i ≠ n / i then 2 else 1) else 0)

/- zframework_kappa (zframework.cpp lines 329-336). -/
noncomputable def zframework_kappa (n : ℕ) : ℝ :=
  if n = 0 then 0
  else (count_divisors n : ℝ) * Real.log ((n : ℝ) + 1) / ZFRAMEWORK_E2

/- The process-wide parameter store (zframework.cpp lines 26-28).  The two
   double fields only ever store literals and are compared against rational
   literals, so they are modelled exactly in ℚ. -/
structure zparams where
  curvature_k : ℚ
  frame_count : ℕ
  density_boost : ℚ

def zparams_default : zparams :=
  { curvature_k := 0.3, frame_count := 0, density_boost := 1.6180339887498948482 }

/- zframework_set_parameters (zframework.cpp lines 292-304): three
   independent validated updates. -/
def zframework_set_parameters (curvature_k : ℚ) (frame_count : ℕ) (density_boost : ℚ)
    (p : zparams) : zparams :=
  let p1 := if 0 < curvature_k ∧ curvature_k ≤ 1 then { p with curvature_k := curvature_k } else p
  let p2 := if frame_count ≤ ZFRAMEWORK_MAX_FRAMES then { p1 with frame_count := frame_count }
            else p1
  if 0 < density_boost then { p2 with density_boost := density_boost } else p2

/- The generator structure (zframework.h lines 35-46).  The sieve buffer is
   a flag per offset, present iff the C pointer is non-null; the write-only
   density_factor field is omitted (it is never read by any operation). -/
structure zgen where
  start : ℕ
  stop : ℕ
  frame_size : ℕ
  frame_shift : ℕ
  residue_mask : ℕ
  frame_count : ℕ
  sieve : Option (ℕ → Bool)
  sieve_size : ℕ
  pos : ℕ

/- Step 2 of sieve_frame (zframework.cpp lines 89-93): clear offsets of 0
   and 1.  The loops of sieve_frame only write the value 0, so each is
   modelled pointwise as the function sending an offset to its final flag. -/
def markSmall (frame_start frame_end : ℕ) (s : ℕ → Bool) : ℕ → Bool := fun i =>
  if frame_start ≤ 1 ∧
      ((frame_start = 0 ∧ i = 0) ∨ (frame_end > 1 ∧ i = 1 - frame_start)) then false
  else s i

/- First multiple of p marked by the inner loop (zframework.cpp lines 106-115). -/
def startMultiple (frame_start p : ℕ) : ℕ :=
  let sm := if frame_start % p = 0 then frame_start else frame_start + (p - frame_start % p)
  if frame_start ≤ p * p ∧ sm < p * p then p * p else sm

/- The inner marking loop (zframework.cpp lines 117-125): it visits exactly
   the multiples of p in [startMultiple, frame_end] and clears those with
   multiple ≥ frame_start, multiple ≠ p and in-bounds index. -/
def markMultiples (frame_start frame_end ss p : ℕ) (s : ℕ → Bool) : ℕ → Bool := fun i =>
  if p ∣ (frame_start + i) ∧ startMultiple frame_start p ≤ frame_start + i ∧
      frame_start + i ≤ frame_end ∧ frame_start + i ≠ p ∧ i < ss then false
  else s i

/- One iteration of the outer sieve loop (zframework.cpp lines 98-126),
   including the "skip p already marked composite" test of lines 100-104. -/
def sieveStep (frame_start frame_end ss : ℕ) (s : ℕ → Bool) (p : ℕ) : ℕ → Bool :=
  if 2 ≤ p ∧ p < frame_start + ss ∧ frame_start ≤ p ∧ p < frame_end ∧ s (p - frame_start) = false
  then s
  else markMultiples frame_start frame_end ss p s

/- Decision of the residue/density post-filter (zframework.cpp lines
   130-154) for an offset whose flag is set, as a function of n. -/
def zfilter_elem (dl : ℕ → Bool) (n : ℕ) : Bool :=
  if n ≤ 1 then false
  else if n = 2 ∨ n = 3 then true
  else if is_valid_residue n = false then (if dl n then false else true)
  else true

/- Whether the post-filter reaches the density test for a flagged n
   (the branch structure of zframework.cpp lines 133-153). -/
def zdensity_invoked (n : ℕ) : Bool :=
  if n ≤ 1 then false
  else if n = 2 ∨ n = 3 then false
  else if is_valid_residue n = false then true
  else false

/- The post-filter loop (zframework.cpp lines 129-155), pointwise. -/
def postFilter (dl : ℕ → Bool) (frame_start frame_size ss : ℕ) (s : ℕ → Bool) : ℕ → Bool :=
  fun i =>
    if i < frame_size ∧ i < ss ∧ s i = true then zfilter_elem dl (frame_start + i)
    else s i

/- sieve_frame (zframework.cpp lines 78-156). -/
def sieve_frame (dl : ℕ → Bool) (g : zgen) : ℕ → Bool :=
  let frame_start := g.start + g.frame_shift
  let frame_end0 := frame_start + g.frame_size
  let frame_end := if frame_end0 > g.stop then g.stop else frame_end0
  let s0 : ℕ → Bool := fun _ => true
  let s1 := markSmall frame_start frame_end s0
  let s2 := (List.range' 2 (Nat.sqrt frame_end)).foldl
      (sieveStep frame_start frame_end g.sieve_size) s1
  postFilter dl frame_start g.frame_size g.sieve_size s2

/- zframework_init (zframework.cpp lines 158-190); none models the EINVAL
   failure (start > stop); allocation is assumed to succeed. -/
def zframework_init (dl : ℕ → Bool) (start stop : ℕ) : Option zgen :=
  if start > stop then none
  else
    let range := stop - start + 1
    let g : zgen :=
      { start := start, stop := stop, frame_size := range, frame_shift := 0,
        residue_mask := 0xFF, frame_count := 1, sieve := none, sieve_size := range, pos := 0 }
    some { g with sieve := some (sieve_frame dl g) }

/- The scanning loop of zframework_next_prime (zframework.cpp lines
   197-212), with explicit cursor and enough fuel for the remaining
   positions; returns (result, final pos). -/
def next_prime_loop (s : ℕ → Bool) (frame_start stop frame_size : ℕ) : ℕ → ℕ → ℕ × ℕ
  | 0, pos => (0, pos)
  | fuel + 1, pos =>
    if pos < frame_size ∧ frame_start + pos ≤ stop then
      (if s pos then
        (if frame_start + pos ≤ 1 then
          next_prime_loop s frame_start stop frame_size fuel (pos + 1)
         else (frame_start + pos, pos + 1))
       else next_prime_loop s frame_start stop frame_size fuel (pos + 1))
    else (0, pos)

/- zframework_next_prime (zframework.cpp lines 192-215).  A generator whose
   sieve pointer is null yields the sentinel and is left unchanged. -/
def zframework_next_prime (g : zgen) : ℕ × zgen :=
  match g.sieve with
  | none => (0, g)
  | some s =>
    let frame_start := g.start + g.frame_shift
    let r := next_prime_loop s frame_start g.stop g.frame_size (g.frame_size - g.pos) g.pos
    (r.1, { g with pos := r.2 })

/- zframework_cleanup (zframework.cpp lines 282-290): frees the buffer and
   zeroes the structure. -/
def zframework_cleanup (_g : zgen) : zgen :=
  { start := 0, stop := 0, frame_size := 0, frame_shift := 0, residue_mask := 0,
    frame_count := 0, sieve := none, sieve_size := 0, pos := 0 }

/- The draining loop of zframework_count_primes (zframework.cpp lines
   224-229). -/
def count_loop : ℕ → zgen → ℕ → ℕ
  | 0, _, count => count
  | fuel + 1, g, count =>
    let r := zframework_next_prime g
    if r.1 = 0 then count else count_loop fuel r.2 (count + 1)

/- zframework_count_primes (zframework.cpp lines 217-233). -/
def zframework_count_primes (dl : ℕ → Bool) (start stop : ℕ) : ℕ :=
  match zframework_init dl start stop with
  | none => 0
  | some g => count_loop (g.frame_size + 1) g 0

/- The same drain performed by an external caller of zframework_next_prime,
   recording the produced values in order (used to state the iteration
   contract). -/
def drain_loop : ℕ → zgen → List ℕ → List ℕ × zgen
  | 0, g, acc => (acc.reverse, g)
  | fuel + 1, g, acc =>
    let r := zframework_next_prime g
    if r.1 = 0 then (acc.reverse, r.2) else drain_loop fuel r.2 (r.1 :: acc)

/- The divisor (uint64_t)std::log(stop - start + 1) of the capacity
   estimate in zframework_generate_primes (zframework.cpp line 244). -/
noncomputable def zframework_estimate_divisor (start stop : ℕ) : ℕ :=
  ⌊Real.log ((stop - start + 1 : ℕ) : ℝ)⌋₊

/- The capacity estimate of zframework_generate_primes (line 244). -/
noncomputable def zframework_estimated_count (start stop : ℕ) : ℕ :=
  (stop - start) / zframework_estimate_divisor start stop + 100

/- The bounded collection loop of zframework_generate_primes (lines
   257-262): a fetched prime is appended only while count < cap. -/
def gen_loop (cap : ℕ) : ℕ → zgen → List ℕ → ℕ → List ℕ
  | 0, _, acc, _ => acc.reverse
  | fuel + 1, g, acc, count =>
    let r := zframework_next_prime g
    if r.1 ≠ 0 ∧ count < cap then gen_loop cap fuel r.2 (r.1 :: acc) (count + 1)
    else acc.reverse

/- zframework_generate_primes (zframework.cpp lines 235-276): none models
   the undefined division by zero (ranges of size ≤ 2) and the EINVAL
   failure of the inner init; the returned list stands for the final
   (buffer, *size) pair. -/
noncomputable def zframework_generate_primes (dl : ℕ → Bool) (start stop : ℕ) :
    Option (List ℕ) :=
  if zframework_estimate_divisor start stop = 0 then none
  else
    match zframework_init dl start stop with
    | none => none
    | some g =>
      some (gen_loop (zframework_estimated_count start stop) (g.frame_size + 1) g [] 0)

/- The sieve contents produced by zframework_init dl a b (proof helper
   naming the buffer of the single frame [a, b]). -/
def zsieve (dl : ℕ → Bool) (a b : ℕ) : ℕ → Bool :=
  sieve_frame dl
    { start := a, stop := b, frame_size := b - a + 1, frame_shift := 0,
      residue_mask := 0xFF, frame_count := 1, sieve := none,
      sieve_size := b - a + 1, pos := 0 }

/- The generator state reached from zframework_init dl a b once the cursor
   has advanced to t (proof helper). -/
def zgen_at (dl : ℕ → Bool) (a b t : ℕ) : zgen :=
  { start := a, stop := b, frame_size := b - a + 1, frame_shift := 0,
    residue_mask := 0xFF, frame_count := 1,
    sieve := some (zsieve dl a b), sieve_size := b - a + 1, pos := t }

/- The state of the sieve buffer after the Eratosthenes phase and before
   the residue/density post-filter (proof helper). -/
def base_sieve (a b : ℕ) : ℕ → Bool :=
  (List.range' 2 (Nat.sqrt b)).foldl (sieveStep a b (b - a + 1))
    (markSmall a b (fun _ => true))

/- The positions of the frame that zframework_next_prime reports as primes:
   flag set and value at least 2 (proof helper). -/
def zhit (dl : ℕ → Bool) (a b : ℕ) (j : ℕ) : Bool :=
  zsieve dl a b j && decide (2 ≤ a + j)

/- Auxiliary, kernel-evaluable prime counting used to settle concrete
   instances: trial division with a structurally decreasing fuel, and a
   divide-and-conquer counter of logarithmic recursion depth. -/
def divLoop (n : ℕ) : ℕ → ℕ → Bool
  | 0, _ => true
  | fuel + 1, d =>
    if (d * d).ble n then (if (n % d).beq 0 then false else divLoop n fuel (d + 1)) else true

def isPrimeB (n : ℕ) : Bool := (2:ℕ).ble n && divLoop n n 2

def countRange (p : ℕ → Bool) : ℕ → ℕ → ℕ → ℕ
  | 0, lo, n => if n.beq 1 then (if p lo then 1 else 0) else 0
  | fuel + 1, lo, n =>
    if n.ble 1 then (if n.beq 0 then 0 else (if p lo then 1 else 0))
    else countRange p fuel lo (n / 2) + countRange p fuel (lo + n / 2) (n - n / 2)

/- ------------------------------------------------------------------ -/
/- Parameter store: claim C8.                                         -/
/- ------------------------------------------------------------------ -/

/-- C8: setParameters updates each of the three fields independently iff the
corresponding argument passes its validation (0 < curvatureK ≤ 1,
frameCount ≤ 32, densityBoost > 0); a rejected argument leaves the previous
value in place and no error is signalled.  In particular
setParameters(-1, 0, 1.0) leaves curvatureK unchanged, and
setParameters(0.5, 999999, 1.0) leaves frameCountHint unchanged while still
setting curvatureK to 0.5. -/
theorem zframework_set_parameters_spec (p : zparams) (k db : ℚ) (fc : ℕ) :
    ((zframework_set_parameters k fc db p).curvature_k
        = if 0 < k ∧ k ≤ 1 then k else p.curvature_k)
    ∧ ((zframework_set_parameters k fc db p).frame_count
        = if fc ≤ ZFRAMEWORK_MAX_FRAMES then fc else p.frame_count)
    ∧ ((zframework_set_parameters k fc db p).density_boost
        = if 0 < db then db else p.density_boost)
    ∧ (zframework_set_parameters (-1) 0 1 p).curvature_k = p.curvature_k
    ∧ (zframework_set_parameters (1/2) 999999 1 p).curvature_k = 1/2
    ∧ (zframework_set_parameters (1/2) 999999 1 p).frame_count = p.frame_count := by
  unfold zframework_set_parameters ZFRAMEWORK_MAX_FRAMES
  refine ⟨?_, ?_, ?_, ?_, ?_, ?_⟩ <;> [skip; skip; skip; norm_num; norm_num; norm_num] <;>
    split_ifs <;> rfl

/- ------------------------------------------------------------------ -/
/- Generator lifecycle: claims C9 and C10.                            -/
/- ------------------------------------------------------------------ -/

/-- C9: initGenerator(start, stop) fails (with EINVAL) iff start > stop,
allocation success assumed; on success the generator is populated with
pos = 0, frameShift = 0, frameCount = 1 and
frameSize = sieveSize = stop - start + 1.  In particular
initGenerator(5, 3) fails. -/
theorem zframework_init_spec (dl : ℕ → Bool) (a b : ℕ) :
    (zframework_init dl a b = none ↔ b < a)
    ∧ (∀ g, zframework_init dl a b = some g →
        g.pos = 0 ∧ g.frame_shift = 0 ∧ g.frame_count = 1 ∧ g.frame_size = b - a + 1
        ∧ g.sieve_size = b - a + 1 ∧ g.sieve.isSome = true ∧ g.start = a ∧ g.stop = b)
    ∧ zframework_init dl 5 3 = none := by
  refine ⟨?_, ?_, ?_⟩
  · unfold zframework_init
    split_ifs with h
    · simpa using h
    · simp only [reduceCtorEq, false_iff]
      omega
  · intro g hg
    unfold zframework_init at hg
    split_ifs at hg with h
    cases hg
    exact ⟨rfl, rfl, rfl, rfl, rfl, rfl, rfl, rfl⟩
  · unfold zframework_init
    norm_num

/-- Witness for C9: concrete failure at (5,3) and concrete success at (1,10). -/
theorem zframework_init_spec_witness :
    zframework_init density_never_low 5 3 = none
    ∧ (zframework_init density_never_low 1 10).elim False
        (fun g => g.pos = 0 ∧ g.frame_shift = 0 ∧ g.frame_count = 1 ∧ g.frame_size = 10
          ∧ g.sieve_size = 10 ∧ g.sieve.isSome = true) := by
  refine ⟨(zframework_init_spec density_never_low 5 3).2.2, ?_⟩
  cases hg : zframework_init density_never_low 1 10 with
  | none =>
    have := ((zframework_init_spec density_never_low 1 10).1).mp hg
    omega
  | some g =>
    have h := (zframework_init_spec density_never_low 1 10).2.1 g hg
    exact ⟨h.1, h.2.1, h.2.2.1, h.2.2.2.1, h.2.2.2.2.1, h.2.2.2.2.2.1⟩

/-- C10: nextPrime on a generator whose sieve buffer is absent (cleaned up
or never populated) returns the sentinel 0 and leaves the generator
unchanged; cleanup produces exactly such a generator. -/
theorem zframework_next_prime_no_sieve (g : zgen) :
    (g.sieve = none → zframework_next_prime g = (0, g))
    ∧ zframework_next_prime (zframework_cleanup g) = (0, zframework_cleanup g)
    ∧ (zframework_cleanup g).sieve = none := by
  refine ⟨fun h => ?_, rfl, rfl⟩
  unfold zframework_next_prime
  rw [h]

/-- Witness for C10 at a concrete cleaned-up generator. -/
theorem zframework_next_prime_no_sieve_witness :
    zframework_next_prime
        { start := 3, stop := 9, frame_size := 7, frame_shift := 0, residue_mask := 255,
          frame_count := 1, sieve := none, sieve_size := 7, pos := 2 }
      = (0, { start := 3, stop := 9, frame_size := 7, frame_shift := 0, residue_mask := 255,
              frame_count := 1, sieve := none, sieve_size := 7, pos := 2 }) :=
  (zframework_next_prime_no_sieve _).1 rfl

/- ------------------------------------------------------------------ -/
/- Residue classes and the post-filter branch structure: claim C5     -/
/- (helpers shared with C1, C4 and C7).                               -/
/- ------------------------------------------------------------------ -/

theorem is_valid_residue_iff_coprime (n : ℕ) :
    is_valid_residue n = true ↔ Nat.gcd n 30 = 1 := by
  have hmod : Nat.gcd n 30 = Nat.gcd (n % 30) 30 := by
    rw [Nat.gcd_comm, Nat.gcd_rec, Nat.gcd_comm]
  have hlt : n % 30 < 30 := Nat.mod_lt _ (by norm_num)
  have hall : ∀ r < 30, (is_valid_residue r = true ↔ Nat.gcd r 30 = 1) := by decide
  have hself : is_valid_residue n = is_valid_residue (n % 30) := by
    unfold is_valid_residue
    rw [Nat.mod_mod_of_dvd _ (dvd_refl 30)]
  rw [hself, hmod]
  exact hall _ hlt

theorem gcd_thirty_pos (n : ℕ) : 0 < Nat.gcd n 30 :=
  Nat.gcd_pos_of_pos_right _ (by norm_num)

/-- Shared helper: a flagged n > 3 coprime to 30 passes the residue test, so
the post-filter keeps it and the density test is not invoked. -/
theorem zfilter_elem_coprime (n : ℕ) (h3 : 3 < n) (hco : Nat.gcd n 30 = 1) :
    is_valid_residue n = true ∧ zdensity_invoked n = false ∧
      ∀ dl : ℕ → Bool, zfilter_elem dl n = true := by
  have hv : is_valid_residue n = true := (is_valid_residue_iff_coprime n).mpr hco
  refine ⟨hv, ?_, fun dl => ?_⟩
  · unfold zdensity_invoked
    rw [if_neg (by omega), if_neg (by omega), hv]
    simp
  · unfold zfilter_elem
    rw [if_neg (by omega), if_neg (by omega), hv]
    simp

/-- Shared helper: the density test is invoked exactly for flagged n with
n > 1, n ∉ {2, 3} and gcd(n, 30) > 1. -/
theorem zdensity_invoked_iff (n : ℕ) :
    zdensity_invoked n = true ↔ (1 < n ∧ n ≠ 2 ∧ n ≠ 3 ∧ 1 < Nat.gcd n 30) := by
  unfold zdensity_invoked
  split_ifs with h1 h2 h3
  · simp; omega
  · simp; omega
  · have : ¬ Nat.gcd n 30 = 1 := by
      intro hco
      rw [(is_valid_residue_iff_coprime n).mpr hco] at h3
      cases h3
    have := gcd_thirty_pos n
    simp
    omega
  · simp only [Bool.false_eq_true, false_iff]
    intro ⟨_, _, _, hg⟩
    rw [Bool.not_eq_false] at h3
    have := (is_valid_residue_iff_coprime n).mp h3
    omega

/-- C5: every n > 3 with gcd(n, 30) = 1 whose sieve flag is still set passes
the residue-class check and is kept without ever invoking the density test;
only values with gcd(n, 30) > 1 (with n > 1, n ∉ {2, 3}) reach the density
test. -/
theorem residue_filter_path (n : ℕ) :
    (3 < n → Nat.gcd n 30 = 1 →
      is_valid_residue n = true ∧ zdensity_invoked n = false ∧
        ∀ dl : ℕ → Bool, zfilter_elem dl n = true)
    ∧ (zdensity_invoked n = true ↔ (1 < n ∧ n ≠ 2 ∧ n ≠ 3 ∧ 1 < Nat.gcd n 30)) :=
  ⟨fun h3 hco => zfilter_elem_coprime n h3 hco, zdensity_invoked_iff n⟩

/-- Witness for C5 at n = 11 (coprime to 30) and implicitly n = 25 via the
iff (gcd(25,30) = 5 > 1 so 25 reaches the density test). -/
theorem residue_filter_path_witness :
    (is_valid_residue 11 = true ∧ zdensity_invoked 11 = false ∧
      ∀ dl : ℕ → Bool, zfilter_elem dl 11 = true)
    ∧ (zdensity_invoked 25 = true ↔ (1 < 25 ∧ 25 ≠ 2 ∧ 25 ≠ 3 ∧ 1 < Nat.gcd 25 30)) :=
  ⟨(residue_filter_path 11).1 (by norm_num) (by norm_num), (residue_filter_path 25).2⟩

/- ------------------------------------------------------------------ -/
/- Real-number facts about the density estimator and the logarithm    -/
/- of the capacity estimate.                                          -/
/- ------------------------------------------------------------------ -/

theorem golden_ratio_bounds :
    (1.6180339887498948482 : ℝ) = ZFRAMEWORK_GOLDEN_RATIO ∧ (0:ℝ) < ZFRAMEWORK_GOLDEN_RATIO := by
  unfold ZFRAMEWORK_GOLDEN_RATIO
  norm_num

theorem five_div_phi_gt_three : (3:ℝ) < 5 / ZFRAMEWORK_GOLDEN_RATIO := by
  rw [lt_div_iff golden_ratio_bounds.2]
  unfold ZFRAMEWORK_GOLDEN_RATIO
  norm_num

theorem log_five_div_phi_gt_one : 1 < Real.log (5 / ZFRAMEWORK_GOLDEN_RATIO) := by
  rw [Real.lt_log_iff_exp_lt (by linarith [five_div_phi_gt_three])]
  calc Real.exp 1 < 2.7182818286 := Real.exp_one_lt_d9
    _ < 3 := by norm_num
    _ < 5 / ZFRAMEWORK_GOLDEN_RATIO := five_div_phi_gt_three

theorem log_five_div_phi_lt_two : Real.log (5 / ZFRAMEWORK_GOLDEN_RATIO) < 2 := by
  have hpos : (0:ℝ) < 5 / ZFRAMEWORK_GOLDEN_RATIO := by linarith [five_div_phi_gt_three]
  rw [Real.log_lt_iff_lt_exp hpos]
  have h2 : Real.exp 2 = Real.exp 1 ^ 2 := by
    rw [← Real.exp_nat_mul]
    norm_num
  have hphi : (5:ℝ) / ZFRAMEWORK_GOLDEN_RATIO < 3.2 := by
    rw [div_lt_iff golden_ratio_bounds.2]
    unfold ZFRAMEWORK_GOLDEN_RATIO
    norm_num
  have hexp : (2.7182818283:ℝ) ^ 2 < Real.exp 1 ^ 2 :=
    pow_lt_pow_left Real.exp_one_gt_d9 (by norm_num) (by norm_num)
  calc (5:ℝ) / ZFRAMEWORK_GOLDEN_RATIO < 3.2 := hphi
    _ < 2.7182818283 ^ 2 := by norm_num
    _ < Real.exp 1 ^ 2 := hexp
    _ = Real.exp 2 := h2.symm

/-- The density estimate of the transform at n = 5 with frame offset 0. -/
theorem apply_geometric_transform_five (k boost : ℝ) :
    apply_geometric_transform k boost 5 0
      = 1 / (Real.log (5 / ZFRAMEWORK_GOLDEN_RATIO) * (1 + k) * boost) := by
  unfold apply_geometric_transform zframework_density
  rw [if_neg (by norm_num : ¬ (5:ℕ) ≤ 1)]
  have hc : ((0:ℕ) : ℝ) * Real.pi / ZFRAMEWORK_GOLDEN_RATIO = 0 := by
    norm_num
  rw [hc, Real.cos_zero]
  dsimp only
  have hx : ¬ ((5:ℕ):ℝ) / ZFRAMEWORK_GOLDEN_RATIO ≤ 1 := by
    push_cast
    linarith [five_div_phi_gt_three]
  rw [if_neg hx]
  have hlog : ¬ Real.log (((5:ℕ):ℝ) / ZFRAMEWORK_GOLDEN_RATIO) ≤ 0 := by
    push_cast
    linarith [log_five_div_phi_gt_one]
  rw [if_neg hlog]
  push_cast
  ring

/-- At the default parameters the density test does not fire at n = 5. -/
theorem not_density_clears_five :
    ¬ density_clears ZFRAMEWORK_CURVATURE_K ZFRAMEWORK_GOLDEN_RATIO 0 5 := by
  unfold density_clears ZFRAMEWORK_CURVATURE_K
  rw [apply_geometric_transform_five]
  set L := Real.log (5 / ZFRAMEWORK_GOLDEN_RATIO) with hL
  have h1 : 1 < L := log_five_div_phi_gt_one
  have h2 : L < 2 := log_five_div_phi_lt_two
  have hphi1 : ZFRAMEWORK_GOLDEN_RATIO < 1.62 := by
    unfold ZFRAMEWORK_GOLDEN_RATIO
    norm_num
  have hphi0 : (0:ℝ) < ZFRAMEWORK_GOLDEN_RATIO := golden_ratio_bounds.2
  have hD : L * (1 + 0.3) * ZFRAMEWORK_GOLDEN_RATIO < 4.3 := by nlinarith
  have hDpos : 0 < L * (1 + 0.3) * ZFRAMEWORK_GOLDEN_RATIO := by nlinarith
  rw [not_lt, le_div_iff₀ hDpos]
  nlinarith

/-- With curvatureK = 1, densityBoost = 1000 the density test fires at n = 5. -/
theorem density_clears_five_extreme : density_clears 1 1000 0 5 := by
  unfold density_clears
  rw [apply_geometric_transform_five]
  set L := Real.log (5 / ZFRAMEWORK_GOLDEN_RATIO) with hL
  have h1 : 1 < L := log_five_div_phi_gt_one
  have hDpos : (0:ℝ) < L * (1 + 1) * 1000 := by nlinarith
  rw [div_lt_iff₀ hDpos]
  nlinarith

/-- Any sound density abstraction is silent at n = 5 under the defaults. -/
theorem dl_sound_five (dl : ℕ → Bool) (hdl : dl_sound dl) : dl 5 = false := by
  cases h : dl 5
  · rfl
  · exact absurd (hdl 5 h) not_density_clears_five

theorem density_never_low_sound : dl_sound density_never_low := by
  intro n h
  cases h

/- ------------------------------------------------------------------ -/
/- Claim C3: the capacity-estimate divisor.                           -/
/- ------------------------------------------------------------------ -/

/-- C3 (code bug): for ranges of size ≤ 2 the integer divisor
(uint64_t)log(stop - start + 1) of the capacity estimate is 0, so
zframework_generate_primes divides by zero; shown at (0,1) and (5,5). -/
theorem zframework_estimate_divisor_zero :
    zframework_estimate_divisor 0 1 = 0 ∧ zframework_estimate_divisor 5 5 = 0
    ∧ zframework_generate_primes density_never_low 0 1 = none
    ∧ zframework_generate_primes density_never_low 5 5 = none := by
  have h1 : zframework_estimate_divisor 0 1 = 0 := by
    unfold zframework_estimate_divisor
    norm_num [Nat.floor_eq_zero]
    calc Real.log 2 < 0.6931471808 := Real.log_two_lt_d9
      _ < 1 := by norm_num
  have h2 : zframework_estimate_divisor 5 5 = 0 := by
    unfold zframework_estimate_divisor
    norm_num
  refine ⟨h1, h2, ?_, ?_⟩
  · unfold zframework_generate_primes
    rw [if_pos h1]
  · unfold zframework_generate_primes
    rw [if_pos h2]

/- ------------------------------------------------------------------ -/
/- Claim C4: the density filter on true primes.                       -/
/- ------------------------------------------------------------------ -/

/-- Shared helper: a prime other than 5 never reaches the density test and
the post-filter keeps its flag, whatever the density outcome dl. -/
theorem prime_not_five_filter (dl : ℕ → Bool) (n : ℕ) (hp : Nat.Prime n) (h5 : n ≠ 5) :
    zdensity_invoked n = false ∧ zfilter_elem dl n = true := by
  rcases eq_or_ne n 2 with rfl | h2
  · constructor
    · decide
    · unfold zfilter_elem
      norm_num
  rcases eq_or_ne n 3 with rfl | h3
  · constructor
    · decide
    · unfold zfilter_elem
      norm_num
  have h3lt : 3 < n := by
    have := hp.two_le
    omega
  have hnd : ¬ n ∣ 30 := by
    intro hdvd
    have hle : n ≤ 30 := Nat.le_of_dvd (by norm_num) hdvd
    have hsmall : ∀ m, m ≤ 30 → Nat.Prime m → m ∣ 30 → m = 2 ∨ m = 3 ∨ m = 5 := by decide
    rcases hsmall n hle hp hdvd with h | h | h <;> omega
  have hco : Nat.gcd n 30 = 1 := (Nat.Prime.coprime_iff_not_dvd hp).mpr hnd
  have h := zfilter_elem_coprime n h3lt hco
  exact ⟨h.2.1, h.2.2 dl⟩

/-- Shared helper: when dl is silent at 5 the post-filter keeps every prime. -/
theorem prime_filter_kept (dl : ℕ → Bool) (h5 : dl 5 = false) (n : ℕ) (hp : Nat.Prime n) :
    zfilter_elem dl n = true := by
  rcases eq_or_ne n 5 with rfl | hne
  · unfold zfilter_elem
    rw [if_neg (by norm_num), if_neg (by norm_num),
      if_pos (by decide : is_valid_residue 5 = false), h5]
    rfl
  · exact (prime_not_five_filter dl n hp hne).2

/-- C4 counterexample: the validated setter accepts curvatureK = 1 and
densityBoost = 1000, n = 5 is prime and (having gcd(5,30) = 5 > 1) reaches
the density test, and at these accepted parameters the density test fires,
clearing the flag of the true prime 5. -/
theorem density_test_clears_prime_five :
    ((0:ℝ) < 1 ∧ (1:ℝ) ≤ 1) ∧ (0:ℝ) < 1000 ∧ Nat.Prime 5
    ∧ zdensity_invoked 5 = true ∧ density_clears 1 1000 0 5 :=
  ⟨⟨by norm_num, le_refl 1⟩, by norm_num, by norm_num, by decide, density_clears_five_extreme⟩

/-- C4 amended: for every true prime other than 5 (and 5 is the only prime
sharing a factor with 30 beyond the always-kept 2 and 3), the density-based
post-filter never clears the sieve flag — indeed the density test is not
even invoked — regardless of the parameter setting. -/
theorem density_filter_spares_primes_except_five (dl : ℕ → Bool) (n : ℕ)
    (hp : Nat.Prime n) (h5 : n ≠ 5) :
    zdensity_invoked n = false ∧ zfilter_elem dl n = true :=
  prime_not_five_filter dl n hp h5

/-- Witness for C4 (amended) at n = 7. -/
theorem density_filter_spares_primes_except_five_witness :
    zdensity_invoked 7 = false ∧ zfilter_elem density_never_low 7 = true :=
  density_filter_spares_primes_except_five density_never_low 7 (by norm_num) (by norm_num)

/- ------------------------------------------------------------------ -/
/- Claim C6: count_divisors and kappa.                                -/
/- ------------------------------------------------------------------ -/

/-- Shared helper: the trial-division loop of count_divisors computes the
number of positive divisors. -/
theorem count_divisors_eq_card (n : ℕ) (hn : 1 ≤ n) :
    count_divisors n = n.divisors.card := by
  rcases eq_or_lt_of_le hn with h1 | h2
  · rw [← h1]
    simp [count_divisors, Nat.divisors_one]
  have hn0 : n ≠ 0 := by omega
  have hn1 : n ≠ 1 := by omega
  set s := Nat.sqrt n with hs
  have hs1 : 1 ≤ s := by
    rw [hs]
    have := Nat.sqrt_pos.mpr (show 0 < n by omega)
    omega
  have hcd : count_divisors n
      = ∑ i ∈ (Finset.Icc 1 s).filter (· ∣ n), (if i ≠ n / i then 2 else 1) := by
    unfold count_divisors
    rw [if_neg hn0, if_neg hn1, Finset.sum_filter]
    apply Finset.sum_congr rfl
    intro i hi
    have hi1 : 1 ≤ i := (Finset.mem_Icc.mp hi).1
    have hiff : n % i = 0 ↔ i ∣ n := ⟨Nat.dvd_of_mod_eq_zero, Nat.mod_eq_zero_of_dvd⟩
    split_ifs with hmod hdvd hdvd <;> tauto
  have key : ∀ i, i ∈ (Finset.Icc 1 s).filter (· ∣ n) → s ≤ n / i := by
    intro i hi
    rw [Finset.mem_filter, Finset.mem_Icc] at hi
    obtain ⟨⟨hi1, his⟩, hidvd⟩ := hi
    calc s ≤ n / s := (Nat.le_div_iff_mul_le (by omega)).mpr (Nat.sqrt_le n)
      _ ≤ n / i := Nat.div_le_div_left his (by omega)
  have hset : n.divisors = ((Finset.Icc 1 s).filter (· ∣ n)).biUnion
      (fun i => {i, n / i}) := by
    ext d
    simp only [Nat.mem_divisors, Finset.mem_biUnion, Finset.mem_filter, Finset.mem_Icc,
      Finset.mem_insert, Finset.mem_singleton]
    constructor
    · rintro ⟨hdvd, -⟩
      have hd1 : 1 ≤ d := by
        rcases Nat.eq_zero_or_pos d with rfl | h
        · exact absurd (Nat.eq_zero_of_zero_dvd hdvd) hn0
        · omega
      by_cases hds : d ≤ s
      · exact ⟨d, ⟨⟨hd1, hds⟩, hdvd⟩, Or.inl rfl⟩
      · push_neg at hds
        refine ⟨n / d, ⟨⟨?_, ?_⟩, Nat.div_dvd_of_dvd hdvd⟩, Or.inr ?_⟩
        · have hdn : d ≤ n := Nat.le_of_dvd (by omega) hdvd
          exact (Nat.one_le_div_iff (by omega)).mpr hdn
        · have hlt : n < (s + 1) * (s + 1) := by
            rw [hs]
            exact Nat.lt_succ_sqrt n
          have hdl : n / d ≤ n / (s + 1) := Nat.div_le_div_left (by omega) (by omega)
          have h2 : n / (s + 1) < s + 1 := by
            rw [Nat.div_lt_iff_lt_mul (by omega)]
            exact hlt
          omega
        · exact (Nat.div_div_self hdvd hn0).symm
    · rintro ⟨i, ⟨⟨hi1, his⟩, hidvd⟩, hd | hd⟩
      · exact ⟨hd ▸ hidvd, hn0⟩
      · exact ⟨hd ▸ Nat.div_dvd_of_dvd hidvd, hn0⟩
  have hdisj : ∀ x ∈ (Finset.Icc 1 s).filter (· ∣ n), ∀ y ∈ (Finset.Icc 1 s).filter (· ∣ n),
      x ≠ y → Disjoint ({x, n / x} : Finset ℕ) ({y, n / y} : Finset ℕ) := by
    intro x hx y hy hxy
    rw [Finset.mem_filter, Finset.mem_Icc] at hx hy
    obtain ⟨⟨hx1, hxs⟩, hxdvd⟩ := hx
    obtain ⟨⟨hy1, hys⟩, hydvd⟩ := hy
    have hkx : s ≤ n / x := key x (by
      rw [Finset.mem_filter, Finset.mem_Icc]
      exact ⟨⟨hx1, hxs⟩, hxdvd⟩)
    have hky : s ≤ n / y := key y (by
      rw [Finset.mem_filter, Finset.mem_Icc]
      exact ⟨⟨hy1, hys⟩, hydvd⟩)
    rw [Finset.disjoint_left]
    intro d hd hd'
    simp only [Finset.mem_insert, Finset.mem_singleton] at hd hd'
    have hxx : n / (n / x) = x := Nat.div_div_self hxdvd hn0
    have hyy : n / (n / y) = y := Nat.div_div_self hydvd hn0
    rcases hd with hdx | hdx <;> rcases hd' with hdy | hdy
    · exact hxy (hdx ▸ hdy)
    · have hx_eq : x = n / y := by rw [← hdx, hdy]
      have e1 : s ≤ x := by
        rw [hx_eq]
        exact hky
      have e2 : y = n / x := by rw [hx_eq, hyy]
      have e3 : s ≤ y := by
        rw [e2]
        exact hkx
      exact hxy (by omega)
    · have hy_eq : y = n / x := by rw [← hdy, hdx]
      have e1 : s ≤ y := by
        rw [hy_eq]
        exact hkx
      have e2 : x = n / y := by rw [hy_eq, hxx]
      have e3 : s ≤ x := by
        rw [e2]
        exact hky
      exact hxy (by omega)
    · have h4 : n / x = n / y := by rw [← hdx, hdy]
      exact hxy (by rw [← hxx, h4, hyy])
  rw [hset, Finset.card_biUnion hdisj, hcd]
  apply Finset.sum_congr rfl
  intro i hi
  rw [Finset.mem_filter, Finset.mem_Icc] at hi
  rcases eq_or_ne i (n / i) with he | he
  · rw [if_neg (not_not_intro he), ← he]
    simp
  · rw [if_pos he]
    rw [Finset.card_insert_of_not_mem (by simpa using he), Finset.card_singleton]

/-- C6 counterexample: kappa(1) is d(1)·ln(2)/e² = ln(2)/e², which is not 0
(contradicting the claimed kappa(1) = 0). -/
theorem zframework_kappa_one_ne_zero : zframework_kappa 1 ≠ 0 := by
  unfold zframework_kappa
  rw [if_neg (by norm_num)]
  have hcd : count_divisors 1 = 1 := rfl
  rw [hcd]
  have hE : (0:ℝ) < ZFRAMEWORK_E2 := by
    unfold ZFRAMEWORK_E2
    norm_num
  have hl : (0:ℝ) < Real.log (((1:ℕ):ℝ) + 1) := by
    apply Real.log_pos
    norm_num
  have : (0:ℝ) < ((1:ℕ):ℝ) * Real.log (((1:ℕ):ℝ) + 1) / ZFRAMEWORK_E2 := by
    apply div_pos _ hE
    simpa using hl
  push_cast at this ⊢
  exact ne_of_gt this

/-- C6 amended: kappa(0) = 0, kappa is non-negative everywhere, and for
n ≥ 1 kappa(n) = d(n)·ln(n+1)/e² with d(n) the number of positive divisors
of n; consequently kappa(1) = ln(2)/e² is strictly positive, not 0. -/
theorem zframework_kappa_spec :
    zframework_kappa 0 = 0
    ∧ (∀ n : ℕ, 0 ≤ zframework_kappa n)
    ∧ (∀ n : ℕ, 1 ≤ n →
        zframework_kappa n = ((n.divisors.card : ℕ) : ℝ) * Real.log ((n : ℝ) + 1) / ZFRAMEWORK_E2)
    ∧ 0 < zframework_kappa 1 := by
  have hE : (0:ℝ) < ZFRAMEWORK_E2 := by
    unfold ZFRAMEWORK_E2
    norm_num
  refine ⟨rfl, fun n => ?_, fun n hn => ?_, ?_⟩
  · unfold zframework_kappa
    split_ifs with h
    · exact le_rfl
    · apply div_nonneg _ hE.le
      apply mul_nonneg (Nat.cast_nonneg _)
      apply Real.log_nonneg
      have : (1:ℝ) ≤ (n:ℝ) := by
        exact_mod_cast Nat.one_le_iff_ne_zero.mpr h
      linarith
  · unfold zframework_kappa
    rw [if_neg (by omega), count_divisors_eq_card n hn]
  · unfold zframework_kappa
    rw [if_neg (by norm_num)]
    have hl : (0:ℝ) < Real.log (((1:ℕ):ℝ) + 1) := by
      apply Real.log_pos
      norm_num
    have hcd : count_divisors 1 = 1 := rfl
    rw [hcd]
    apply div_pos _ hE
    simpa using hl

/-- Witness for C6 (amended) at n = 2 and n = 5. -/
theorem zframework_kappa_spec_witness :
    zframework_kappa 2
        = (((2:ℕ).divisors.card : ℕ) : ℝ) * Real.log (((2:ℕ) : ℝ) + 1) / ZFRAMEWORK_E2
    ∧ 0 ≤ zframework_kappa 5 :=
  ⟨zframework_kappa_spec.2.2.1 2 (by norm_num), zframework_kappa_spec.2.1 5⟩

/- ------------------------------------------------------------------ -/
/- The Eratosthenes phase of sieve_frame (helpers for C1, C2 and C7). -/
/- ------------------------------------------------------------------ -/

theorem markSmall_eq_true (fs fe : ℕ) (s : ℕ → Bool) (i : ℕ) :
    markSmall fs fe s i = true ↔
      ¬ (fs ≤ 1 ∧ ((fs = 0 ∧ i = 0) ∨ (fe > 1 ∧ i = 1 - fs))) ∧ s i = true := by
  unfold markSmall
  split_ifs with h <;> simp [h]

theorem markMultiples_true_imp (fs fe ss p : ℕ) (s : ℕ → Bool) (i : ℕ)
    (h : markMultiples fs fe ss p s i = true) : s i = true := by
  unfold markMultiples at h
  split_ifs at h
  exact h

theorem sieveStep_true_imp (fs fe ss : ℕ) (s : ℕ → Bool) (p i : ℕ)
    (h : sieveStep fs fe ss s p i = true) : s i = true := by
  unfold sieveStep at h
  split_ifs at h
  · exact h
  · exact markMultiples_true_imp _ _ _ _ _ _ h

theorem foldl_sieveStep_true_imp (fs fe ss : ℕ) (L : List ℕ) (s : ℕ → Bool) (i : ℕ)
    (h : (L.foldl (sieveStep fs fe ss) s) i = true) : s i = true := by
  induction L generalizing s with
  | nil => exact h
  | cons p L ih =>
    rw [List.foldl_cons] at h
    exact sieveStep_true_imp _ _ _ _ _ _ (ih _ h)

theorem sieveStep_prime (fs fe ss : ℕ) (s : ℕ → Bool) (p : ℕ) (hp : 2 ≤ p) (i : ℕ)
    (hpr : Nat.Prime (fs + i)) (hs : s i = true) :
    sieveStep fs fe ss s p i = true := by
  unfold sieveStep
  split_ifs with h
  · exact hs
  · unfold markMultiples
    split_ifs with hc
    · exfalso
      obtain ⟨hdvd, -, -, hne, -⟩ := hc
      rcases Nat.Prime.eq_one_or_self_of_dvd hpr p hdvd with h1 | h1
      · omega
      · exact hne h1.symm
    · exact hs

theorem foldl_sieveStep_prime (fs fe ss : ℕ) (L : List ℕ) (hL : ∀ p ∈ L, 2 ≤ p)
    (s : ℕ → Bool) (i : ℕ) (hpr : Nat.Prime (fs + i)) (hs : s i = true) :
    (L.foldl (sieveStep fs fe ss) s) i = true := by
  induction L generalizing s with
  | nil => exact hs
  | cons p L ih =>
    rw [List.foldl_cons]
    exact ih (fun q hq => hL q (List.mem_cons_of_mem _ hq)) _
      (sieveStep_prime _ _ _ _ _ (hL p (List.mem_cons_self _ _)) _ hpr hs)

theorem startMultiple_le (fs p n : ℕ) (hp : 0 < p) (hd : p ∣ n) (hfs : fs ≤ n)
    (hsq : p * p ≤ n) : startMultiple fs p ≤ n := by
  unfold startMultiple
  dsimp only
  have hsm0 : (if fs % p = 0 then fs else fs + (p - fs % p)) ≤ n := by
    split_ifs with hmod
    · exact hfs
    · have hr : fs % p < p := Nat.mod_lt _ hp
      have hfslt : fs < n := by
        rcases eq_or_lt_of_le hfs with rfl | h
        · exact absurd (Nat.mod_eq_zero_of_dvd hd) hmod
        · exact h
      obtain ⟨m, rfl⟩ := hd
      have hq : fs / p < m := by
        by_contra hle
        push_neg at hle
        have h1 : p * m ≤ p * (fs / p) := Nat.mul_le_mul_left p hle
        have h2 : p * (fs / p) + fs % p = fs := Nat.div_add_mod fs p
        omega
      have h3 : p * (fs / p + 1) ≤ p * m := Nat.mul_le_mul_left p hq
      have h2 : p * (fs / p) + fs % p = fs := Nat.div_add_mod fs p
      have h4 : p * (fs / p + 1) = p * (fs / p) + p := by ring
      omega
  by_cases h : fs ≤ p * p ∧ (if fs % p = 0 then fs else fs + (p - fs % p)) < p * p
  · rw [if_pos h]
    exact hsq
  · rw [if_neg h]
    exact hsm0

theorem foldl_sieveStep_clears (fs fe ss : ℕ) (L : List ℕ) (hL : ∀ p ∈ L, 2 ≤ p)
    (s : ℕ → Bool) (hinv : ∀ j, Nat.Prime (fs + j) → s j = true)
    (q i : ℕ) (hq : q ∈ L) (hqp : Nat.Prime q) (hdvd : q ∣ fs + i)
    (hsm : startMultiple fs q ≤ fs + i) (hle : fs + i ≤ fe) (hne : fs + i ≠ q)
    (hlt : i < ss) :
    (L.foldl (sieveStep fs fe ss) s) i = false := by
  induction L generalizing s with
  | nil => cases hq
  | cons p L ih =>
    rw [List.foldl_cons]
    rcases List.mem_cons.mp hq with rfl | hq'
    · have hstep : (sieveStep fs fe ss s q) i = false := by
        unfold sieveStep
        split_ifs with hskip
        · exfalso
          obtain ⟨-, -, hfsq, -, hfalse⟩ := hskip
          have hpr : Nat.Prime (fs + (q - fs)) := by
            rwa [Nat.add_sub_cancel' hfsq]
          rw [hinv _ hpr] at hfalse
          cases hfalse
        · unfold markMultiples
          rw [if_pos ⟨hdvd, hsm, hle, hne, hlt⟩]
      cases hres : (L.foldl (sieveStep fs fe ss) (sieveStep fs fe ss s q)) i with
      | false => rfl
      | true =>
        rw [foldl_sieveStep_true_imp _ _ _ _ _ _ hres] at hstep
        cases hstep
    · exact ih (fun r hr => hL r (List.mem_cons_of_mem _ hr)) _
        (fun j hj => sieveStep_prime _ _ _ _ _ (hL p (List.mem_cons_self _ _)) _ hj (hinv j hj))
        hq'

/-- Shared helper: after the Eratosthenes phase a flag at offset i with
value at least 2 is set exactly at the primes. -/
theorem base_sieve_true_iff (a b : ℕ) (hab : a ≤ b) (i : ℕ) (hi : i < b - a + 1)
    (h2 : 2 ≤ a + i) :
    base_sieve a b i = true ↔ Nat.Prime (a + i) := by
  unfold base_sieve
  have hL : ∀ p ∈ List.range' 2 (Nat.sqrt b), 2 ≤ p := by
    intro p hp
    exact (List.mem_range'_1.mp hp).1
  have hinv : ∀ j, Nat.Prime (a + j) → markSmall a b (fun _ => true) j = true := by
    intro j hj
    rw [markSmall_eq_true]
    refine ⟨?_, rfl⟩
    rintro ⟨hfs1, hcase⟩
    rcases hcase with ⟨hfs0, hj0⟩ | ⟨hb1, hj1⟩
    · rw [hfs0, hj0] at hj
      norm_num at hj
    · rw [hj1] at hj
      have ha1 : a + (1 - a) = 1 := by omega
      rw [ha1] at hj
      exact Nat.not_prime_one hj
  constructor
  · intro htrue
    by_contra hnp
    have hne1 : a + i ≠ 1 := by omega
    have hq : Nat.Prime ((a + i).minFac) := Nat.minFac_prime hne1
    have hqd : (a + i).minFac ∣ (a + i) := Nat.minFac_dvd _
    have hsq : (a + i).minFac * (a + i).minFac ≤ a + i := by
      have h := Nat.minFac_sq_le_self (by omega) hnp
      rw [pow_two] at h
      exact h
    have hle : a + i ≤ b := by omega
    have hmem : (a + i).minFac ∈ List.range' 2 (Nat.sqrt b) := by
      rw [List.mem_range'_1]
      refine ⟨hq.two_le, ?_⟩
      have h1 : (a + i).minFac ≤ Nat.sqrt (a + i) := Nat.le_sqrt.mpr hsq
      have h2 : Nat.sqrt (a + i) ≤ Nat.sqrt b := Nat.sqrt_le_sqrt hle
      omega
    have hcl := foldl_sieveStep_clears a b (b - a + 1) _ hL _ hinv _ i hmem hq hqd
      (startMultiple_le a _ (a + i) (by have := hq.two_le; omega) hqd (by omega) hsq)
      hle (fun he => hnp (by rw [he]; exact hq)) hi
    rw [hcl] at htrue
    cases htrue
  · intro hpr
    exact foldl_sieveStep_prime a b _ _ hL _ i hpr (hinv i hpr)

/- ------------------------------------------------------------------ -/
/- The populated frame and the iteration loops.                       -/
/- ------------------------------------------------------------------ -/

theorem zsieve_eq (dl : ℕ → Bool) (a b : ℕ) (hab : a ≤ b) :
    zsieve dl a b = postFilter dl a (b - a + 1) (b - a + 1) (base_sieve a b) := by
  unfold zsieve sieve_frame base_sieve
  dsimp only
  have hfe : a + 0 + (b - a + 1) = b + 1 := by omega
  rw [hfe, if_pos (by omega : b + 1 > b), Nat.add_zero]

/-- Shared helper: the populated frame of zframework_init over [a, b]
flags, at every in-range offset, exactly the primes — provided dl is
silent at 5 (as it is at the default parameters). -/
theorem zsieve_true_iff (dl : ℕ → Bool) (a b : ℕ) (hab : a ≤ b) (h5 : dl 5 = false)
    (i : ℕ) (hi : i < b - a + 1) :
    zsieve dl a b i = true ↔ Nat.Prime (a + i) := by
  rw [zsieve_eq dl a b hab]
  unfold postFilter
  by_cases h2 : 2 ≤ a + i
  · have hbase := base_sieve_true_iff a b hab i hi h2
    by_cases hc : i < b - a + 1 ∧ i < b - a + 1 ∧ base_sieve a b i = true
    · rw [if_pos hc]
      have hpr := hbase.mp hc.2.2
      rw [prime_filter_kept dl h5 _ hpr]
      exact iff_of_true rfl hpr
    · rw [if_neg hc]
      push_neg at hc
      have hbf : base_sieve a b i = false := by
        cases hb : base_sieve a b i
        · rfl
        · exact absurd hb (hc hi hi)
      rw [hbf]
      constructor
      · intro h
        cases h
      · intro hpr
        rw [hbase.mpr hpr] at hbf
        cases hbf
  · have hnp : ¬ Nat.Prime (a + i) := by
      intro hp
      have := hp.two_le
      omega
    by_cases hc : i < b - a + 1 ∧ i < b - a + 1 ∧ base_sieve a b i = true
    · rw [if_pos hc]
      have hfe : zfilter_elem dl (a + i) = false := by
        unfold zfilter_elem
        rw [if_pos (by omega)]
      rw [hfe]
      exact iff_of_false (by intro h; cases h) hnp
    · rw [if_neg hc]
      push_neg at hc
      have hbf : base_sieve a b i = false := by
        cases hb : base_sieve a b i
        · rfl
        · exact absurd hb (hc hi hi)
      rw [hbf]
      exact iff_of_false (by intro h; cases h) hnp

theorem zframework_init_eq_some (dl : ℕ → Bool) (a b : ℕ) (hab : a ≤ b) :
    zframework_init dl a b = some (zgen_at dl a b 0) := by
  unfold zframework_init zgen_at zsieve
  rw [if_neg (by omega : ¬ a > b)]

theorem zframework_next_prime_zgen_at (dl : ℕ → Bool) (a b t : ℕ) :
    zframework_next_prime (zgen_at dl a b t)
      = ((next_prime_loop (zsieve dl a b) a b (b - a + 1) ((b - a + 1) - t) t).1,
          zgen_at dl a b
            (next_prime_loop (zsieve dl a b) a b (b - a + 1) ((b - a + 1) - t) t).2) := rfl

theorem next_prime_loop_zero (s : ℕ → Bool) (fs stop fsz pos : ℕ) :
    next_prime_loop s fs stop fsz 0 pos = (0, pos) := rfl

theorem next_prime_loop_succ (s : ℕ → Bool) (fs stop fsz fuel pos : ℕ) :
    next_prime_loop s fs stop fsz (fuel + 1) pos
      = if pos < fsz ∧ fs + pos ≤ stop then
          (if s pos then
            (if fs + pos ≤ 1 then next_prime_loop s fs stop fsz fuel (pos + 1)
             else (fs + pos, pos + 1))
           else next_prime_loop s fs stop fsz fuel (pos + 1))
        else (0, pos) := rfl

theorem count_loop_succ (fuel : ℕ) (g : zgen) (count : ℕ) :
    count_loop (fuel + 1) g count
      = if (zframework_next_prime g).1 = 0 then count
        else count_loop fuel (zframework_next_prime g).2 (count + 1) := rfl

theorem drain_loop_succ (fuel : ℕ) (g : zgen) (acc : List ℕ) :
    drain_loop (fuel + 1) g acc
      = if (zframework_next_prime g).1 = 0 then (acc.reverse, (zframework_next_prime g).2)
        else drain_loop fuel (zframework_next_prime g).2 ((zframework_next_prime g).1 :: acc) :=
  rfl

theorem gen_loop_succ (cap fuel : ℕ) (g : zgen) (acc : List ℕ) (count : ℕ) :
    gen_loop cap (fuel + 1) g acc count
      = if (zframework_next_prime g).1 ≠ 0 ∧ count < cap
        then gen_loop cap fuel (zframework_next_prime g).2
          ((zframework_next_prime g).1 :: acc) (count + 1)
        else acc.reverse := rfl

/-- Shared helper: behaviour of the scanning loop of zframework_next_prime
over the frame [a, b] with sufficient fuel: it returns the first reportable
position after the cursor (flag set, value ≥ 2) and places the cursor just
past it, or the sentinel 0 with the cursor at the end of the frame. -/
theorem next_prime_loop_spec (s : ℕ → Bool) (a b : ℕ) (hab : a ≤ b) :
    ∀ fuel t, t ≤ b - a + 1 → (b - a + 1) - t ≤ fuel →
      (∃ j, t ≤ j ∧ j < b - a + 1 ∧ s j = true ∧ 2 ≤ a + j ∧
        (∀ i, t ≤ i → i < j → ¬ (s i = true ∧ 2 ≤ a + i)) ∧
        next_prime_loop s a b (b - a + 1) fuel t = (a + j, j + 1))
      ∨ ((∀ i, t ≤ i → i < b - a + 1 → ¬ (s i = true ∧ 2 ≤ a + i)) ∧
          next_prime_loop s a b (b - a + 1) fuel t = (0, b - a + 1)) := by
  intro fuel
  induction fuel with
  | zero =>
    intro t ht hf
    right
    have hteq : t = b - a + 1 := by omega
    subst hteq
    exact ⟨fun i h1 h2 => by omega, rfl⟩
  | succ fuel ih =>
    intro t ht hf
    rcases eq_or_lt_of_le ht with rfl | htlt
    · right
      refine ⟨fun i h1 h2 => by omega, ?_⟩
      rw [next_prime_loop_succ, if_neg (by omega)]
    · have hcond : t < b - a + 1 ∧ a + t ≤ b := ⟨htlt, by omega⟩
      rw [next_prime_loop_succ, if_pos hcond]
      cases hst : s t with
      | false =>
        rw [if_neg Bool.false_ne_true]
        rcases ih (t + 1) (by omega) (by omega) with
          ⟨j, hj1, hj2, hj3, hj4, hj5, hj6⟩ | ⟨hno, heq⟩
        · left
          refine ⟨j, by omega, hj2, hj3, hj4, ?_, hj6⟩
          intro i h1 h2
          rcases eq_or_lt_of_le h1 with rfl | h
          · rintro ⟨hsi, -⟩
            rw [hst] at hsi
            cases hsi
          · exact hj5 i (by omega) h2
        · right
          refine ⟨?_, heq⟩
          intro i h1 h2
          rcases eq_or_lt_of_le h1 with rfl | h
          · rintro ⟨hsi, -⟩
            rw [hst] at hsi
            cases hsi
          · exact hno i (by omega) h2
      | true =>
        rw [if_pos rfl]
        by_cases hle1 : a + t ≤ 1
        · rw [if_pos hle1]
          rcases ih (t + 1) (by omega) (by omega) with
            ⟨j, hj1, hj2, hj3, hj4, hj5, hj6⟩ | ⟨hno, heq⟩
          · left
            refine ⟨j, by omega, hj2, hj3, hj4, ?_, hj6⟩
            intro i h1 h2
            rcases eq_or_lt_of_le h1 with rfl | h
            · rintro ⟨-, h2i⟩
              omega
            · exact hj5 i (by omega) h2
          · right
            refine ⟨?_, heq⟩
            intro i h1 h2
            rcases eq_or_lt_of_le h1 with rfl | h
            · rintro ⟨-, h2i⟩
              omega
            · exact hno i (by omega) h2
        · rw [if_neg hle1]
          left
          exact ⟨t, le_rfl, htlt, hst, by omega, fun i h1 h2 => by omega, rfl⟩

/-- Shared helper: splitting a filtered position range at its first hit. -/
theorem filter_range'_split (p : ℕ → Bool) (t j n : ℕ) (h1 : t ≤ j) (h2 : j < t + n)
    (hpj : p j = true) (hmin : ∀ i, t ≤ i → i < j → p i = false) :
    (List.range' t n).filter p = j :: (List.range' (j + 1) (t + n - (j + 1))).filter p := by
  have hsp : List.range' t n
      = List.range' t (j - t) ++ List.range' (t + (j - t)) (n - (j - t)) := by
    rw [List.range'_append_1]
    congr 1
    omega
  rw [hsp, List.filter_append]
  have hpre : (List.range' t (j - t)).filter p = [] := by
    rw [List.filter_eq_nil_iff]
    intro x hx
    have hxr := List.mem_range'_1.mp hx
    rw [hmin x hxr.1 (by omega)]
    exact Bool.false_ne_true
  rw [hpre, List.nil_append]
  have htj : t + (j - t) = j := by omega
  have hnn : n - (j - t) = (t + n - (j + 1)) + 1 := by omega
  rw [htj, hnn, List.range'_succ, List.filter_cons_of_pos hpj]

theorem countP_range'_split (p : ℕ → Bool) (t j n : ℕ) (h1 : t ≤ j) (h2 : j < t + n)
    (hpj : p j = true) (hmin : ∀ i, t ≤ i → i < j → p i = false) :
    (List.range' t n).countP p = 1 + (List.range' (j + 1) (t + n - (j + 1))).countP p := by
  rw [List.countP_eq_length_filter, List.countP_eq_length_filter,
    filter_range'_split p t j n h1 h2 hpj hmin, List.length_cons]
  omega

/-- Shared helper: the counting drain of zframework_count_primes counts the
reportable positions after the cursor. -/
theorem count_loop_spec (dl : ℕ → Bool) (a b : ℕ) (hab : a ≤ b) :
    ∀ fuel t count, t ≤ b - a + 1 → (b - a + 1) - t < fuel →
      count_loop fuel (zgen_at dl a b t) count
        = count + (List.range' t ((b - a + 1) - t)).countP (zhit dl a b) := by
  intro fuel
  induction fuel with
  | zero =>
    intro t count ht hf
    omega
  | succ fuel ih =>
    intro t count ht hf
    rw [count_loop_succ, zframework_next_prime_zgen_at]
    rcases next_prime_loop_spec (zsieve dl a b) a b hab ((b - a + 1) - t) t ht le_rfl with
      ⟨j, hj1, hj2, hj3, hj4, hj5, hj6⟩ | ⟨hno, heq⟩
    · rw [hj6]
      dsimp only
      rw [if_neg (by omega : ¬ (a + j = 0)), ih (j + 1) (count + 1) (by omega) (by omega)]
      have hsplit := countP_range'_split (zhit dl a b) t j ((b - a + 1) - t) hj1 (by omega)
        (by unfold zhit; rw [hj3]; simp [hj4])
        (fun i hi1 hi2 => by
          have := hj5 i hi1 hi2
          unfold zhit
          cases hs : zsieve dl a b i
          · rfl
          · simp only [Bool.true_and]
            simp only [decide_eq_false_iff_not]
            intro h2i
            exact this ⟨hs, h2i⟩)
      have harith : t + ((b - a + 1) - t) - (j + 1) = (b - a + 1) - (j + 1) := by omega
      rw [harith] at hsplit
      omega
    · rw [heq]
      dsimp only
      rw [if_pos rfl]
      have hz : (List.range' t ((b - a + 1) - t)).countP (zhit dl a b) = 0 := by
        rw [List.countP_eq_length_filter]
        rw [List.filter_eq_nil_iff.mpr ?_]
        · rfl
        · intro x hx
          have hxr := List.mem_range'_1.mp hx
          have hnohit := hno x hxr.1 (by omega)
          unfold zhit
          cases hs : zsieve dl a b x
          · simp
          · simp only [Bool.true_and, decide_eq_true_eq]
            intro h2x
            exact hnohit ⟨hs, h2x⟩
      omega

/-- Shared helper: an external drain of zframework_next_prime produces the
values of the reportable positions in order, leaving the cursor exhausted. -/
theorem drain_loop_spec (dl : ℕ → Bool) (a b : ℕ) (hab : a ≤ b) :
    ∀ fuel t acc, t ≤ b - a + 1 → (b - a + 1) - t < fuel →
      drain_loop fuel (zgen_at dl a b t) acc
        = (acc.reverse
            ++ ((List.range' t ((b - a + 1) - t)).filter (zhit dl a b)).map (fun j => a + j),
           zgen_at dl a b (b - a + 1)) := by
  intro fuel
  induction fuel with
  | zero =>
    intro t acc ht hf
    omega
  | succ fuel ih =>
    intro t acc ht hf
    rw [drain_loop_succ, zframework_next_prime_zgen_at]
    rcases next_prime_loop_spec (zsieve dl a b) a b hab ((b - a + 1) - t) t ht le_rfl with
      ⟨j, hj1, hj2, hj3, hj4, hj5, hj6⟩ | ⟨hno, heq⟩
    · rw [hj6]
      dsimp only
      rw [if_neg (by omega : ¬ (a + j = 0)), ih (j + 1) ((a + j) :: acc) (by omega) (by omega)]
      have hsplit := filter_range'_split (zhit dl a b) t j ((b - a + 1) - t) hj1 (by omega)
        (by unfold zhit; rw [hj3]; simp [hj4])
        (fun i hi1 hi2 => by
          have := hj5 i hi1 hi2
          unfold zhit
          cases hs : zsieve dl a b i
          · rfl
          · simp only [Bool.true_and]
            simp only [decide_eq_false_iff_not]
            intro h2i
            exact this ⟨hs, h2i⟩)
      have harith : t + ((b - a + 1) - t) - (j + 1) = (b - a + 1) - (j + 1) := by omega
      rw [harith] at hsplit
      rw [hsplit, List.map_cons, List.reverse_cons, List.append_assoc, List.cons_append,
        List.nil_append]
    · rw [heq]
      dsimp only
      rw [if_pos rfl]
      have hz : (List.range' t ((b - a + 1) - t)).filter (zhit dl a b) = [] := by
        rw [List.filter_eq_nil_iff]
        intro x hx
        have hxr := List.mem_range'_1.mp hx
        have hnohit := hno x hxr.1 (by omega)
        unfold zhit
        cases hs : zsieve dl a b x
        · simp
        · simp only [Bool.true_and, decide_eq_true_eq]
          intro h2x
          exact hnohit ⟨hs, h2x⟩
      rw [hz, List.map_nil, List.append_nil]

/-- Shared helper: the bounded collection loop of zframework_generate_primes
produces the first cap - count reportable values after the cursor. -/
theorem gen_loop_spec (dl : ℕ → Bool) (a b cap : ℕ) (hab : a ≤ b) :
    ∀ fuel t acc count, t ≤ b - a + 1 → (b - a + 1) - t < fuel →
      gen_loop cap fuel (zgen_at dl a b t) acc count
        = acc.reverse
            ++ (((List.range' t ((b - a + 1) - t)).filter (zhit dl a b)).map
                (fun j => a + j)).take (cap - count) := by
  intro fuel
  induction fuel with
  | zero =>
    intro t acc count ht hf
    omega
  | succ fuel ih =>
    intro t acc count ht hf
    rw [gen_loop_succ, zframework_next_prime_zgen_at]
    rcases next_prime_loop_spec (zsieve dl a b) a b hab ((b - a + 1) - t) t ht le_rfl with
      ⟨j, hj1, hj2, hj3, hj4, hj5, hj6⟩ | ⟨hno, heq⟩
    · rw [hj6]
      dsimp only
      have hsplit := filter_range'_split (zhit dl a b) t j ((b - a + 1) - t) hj1 (by omega)
        (by unfold zhit; rw [hj3]; simp [hj4])
        (fun i hi1 hi2 => by
          have := hj5 i hi1 hi2
          unfold zhit
          cases hs : zsieve dl a b i
          · rfl
          · simp only [Bool.true_and]
            simp only [decide_eq_false_iff_not]
            intro h2i
            exact this ⟨hs, h2i⟩)
      have harith : t + ((b - a + 1) - t) - (j + 1) = (b - a + 1) - (j + 1) := by omega
      rw [harith] at hsplit
      by_cases hcap : count < cap
      · rw [if_pos ⟨by omega, hcap⟩, ih (j + 1) ((a + j) :: acc) (count + 1) (by omega)
          (by omega)]
        rw [hsplit, List.map_cons]
        have hc1 : cap - count = (cap - (count + 1)) + 1 := by omega
        rw [hc1, List.take_succ_cons, List.reverse_cons, List.append_assoc, List.cons_append,
          List.nil_append]
      · rw [if_neg (by tauto)]
        have hc0 : cap - count = 0 := by omega
        rw [hc0, List.take_zero, List.append_nil]
    · rw [heq]
      dsimp only
      rw [if_neg (by simp)]
      have hz : (List.range' t ((b - a + 1) - t)).filter (zhit dl a b) = [] := by
        rw [List.filter_eq_nil_iff]
        intro x hx
        have hxr := List.mem_range'_1.mp hx
        have hnohit := hno x hxr.1 (by omega)
        unfold zhit
        cases hs : zsieve dl a b x
        · simp
        · simp only [Bool.true_and, decide_eq_true_eq]
          intro h2x
          exact hnohit ⟨hs, h2x⟩
      rw [hz, List.map_nil, List.take_nil, List.append_nil]

/- ------------------------------------------------------------------ -/
/- Bridging position counts to the prime-counting function.           -/
/- ------------------------------------------------------------------ -/

/-- Shared helper: the number of primes in [a, b] as a count over the
position range of the frame. -/
theorem card_Icc_filter_prime (a b : ℕ) :
    ((Finset.Icc a b).filter Nat.Prime).card
      = (List.range' a (b + 1 - a)).countP (fun n => decide (Nat.Prime n)) := by
  rw [Nat.Icc_eq_range', List.countP_eq_length_filter]
  rfl

/-- Shared helper: with dl silent at 5, the reportable positions of the
frame [a, b] are exactly the positions of the primes of [a, b]. -/
theorem countP_zhit_eq (dl : ℕ → Bool) (a b : ℕ) (hab : a ≤ b) (h5 : dl 5 = false) :
    (List.range' 0 (b - a + 1)).countP (zhit dl a b)
      = ((Finset.Icc a b).filter Nat.Prime).card := by
  rw [card_Icc_filter_prime]
  have h1 : List.range' a (b + 1 - a) = (List.range' 0 (b - a + 1)).map (a + ·) := by
    rw [List.map_add_range']
    congr 1
    omega
  rw [h1, List.countP_map]
  apply List.countP_congr
  intro j hj
  have hjr := List.mem_range'_1.mp hj
  have hjlt : j < b - a + 1 := by omega
  have hiff := zsieve_true_iff dl a b hab h5 j hjlt
  show zhit dl a b j = true ↔ ((fun n => decide (Nat.Prime n)) ∘ (a + ·)) j = true
  unfold zhit
  simp only [Function.comp_apply, Bool.and_eq_true, decide_eq_true_eq]
  constructor
  · rintro ⟨hs, -⟩
    exact hiff.mp hs
  · intro hp
    exact ⟨hiff.mpr hp, hp.two_le⟩

/- ------------------------------------------------------------------ -/
/- Correctness of the auxiliary prime counter.                        -/
/- ------------------------------------------------------------------ -/

theorem divLoop_succ (n fuel d : ℕ) :
    divLoop n (fuel + 1) d
      = if d * d ≤ n then (if n % d = 0 then false else divLoop n fuel (d + 1)) else true := by
  simp only [divLoop, Nat.ble_eq, Nat.beq_eq]

theorem divLoop_spec (n : ℕ) :
    ∀ fuel d, 2 ≤ d → n < (d + fuel) * (d + fuel) →
      (divLoop n fuel d = true ↔ ∀ e, d ≤ e → e * e ≤ n → ¬ e ∣ n) := by
  intro fuel
  induction fuel with
  | zero =>
    intro d hd hlt
    simp only [divLoop, true_iff]
    simp only [Nat.add_zero] at hlt
    intro e hde hsq hdvd
    have h1 : d * d ≤ e * e := Nat.mul_le_mul hde hde
    omega
  | succ fuel ih =>
    intro d hd hlt
    rw [divLoop_succ]
    by_cases hdd : d * d ≤ n
    · rw [if_pos hdd]
      by_cases hmod : n % d = 0
      · rw [if_pos hmod]
        constructor
        · intro h
          cases h
        · intro h
          exact absurd (Nat.dvd_of_mod_eq_zero hmod) (h d le_rfl hdd)
      · rw [if_neg hmod]
        rw [ih (d + 1) (by omega) (by
          have harith : d + 1 + fuel = d + (fuel + 1) := by omega
          rw [harith]
          exact hlt)]
        constructor
        · intro h e hde hsq hdvd
          rcases eq_or_lt_of_le hde with rfl | hgt
          · exact hmod (Nat.mod_eq_zero_of_dvd hdvd)
          · exact h e (by omega) hsq hdvd
        · intro h e hde hsq hdvd
          exact h e (by omega) hsq hdvd
    · rw [if_neg hdd]
      simp only [true_iff]
      intro e hde hsq hdvd
      have h1 : d * d ≤ e * e := Nat.mul_le_mul hde hde
      omega

theorem isPrimeB_eq (n : ℕ) : isPrimeB n = decide (Nat.Prime n) := by
  unfold isPrimeB
  by_cases h2 : 2 ≤ n
  · rw [show ((2:ℕ).ble n) = true from by rw [Nat.ble_eq]; exact h2, Bool.true_and]
    have hspec := divLoop_spec n n 2 le_rfl (by nlinarith)
    by_cases hp : Nat.Prime n
    · rw [decide_eq_true hp]
      rw [hspec]
      intro e h2e hsq hdvd
      rcases (Nat.Prime.eq_one_or_self_of_dvd hp e hdvd) with rfl | rfl
      · omega
      · nlinarith
    · rw [decide_eq_false hp]
      cases hdl : divLoop n n 2
      · rfl
      · exfalso
        have hall := hspec.mp hdl
        have hne1 : n ≠ 1 := by omega
        have hq := Nat.minFac_prime hne1
        have hqd := Nat.minFac_dvd n
        have hsq : n.minFac * n.minFac ≤ n := by
          have h := Nat.minFac_sq_le_self (by omega) hp
          rw [pow_two] at h
          exact h
        exact hall n.minFac hq.two_le hsq hqd
  · rw [show ((2:ℕ).ble n) = false from by
      cases hble : (2:ℕ).ble n
      · rfl
      · rw [Nat.ble_eq] at hble
        omega]
    rw [Bool.false_and]
    have : ¬ Nat.Prime n := fun hp => h2 hp.two_le
    rw [decide_eq_false this]

theorem countRange_zero (p : ℕ → Bool) (lo n : ℕ) :
    countRange p 0 lo n = if n = 1 then (if p lo then 1 else 0) else 0 := by
  simp only [countRange, Nat.beq_eq]

theorem countRange_succ (p : ℕ → Bool) (fuel lo n : ℕ) :
    countRange p (fuel + 1) lo n
      = if n ≤ 1 then (if n = 0 then 0 else (if p lo then 1 else 0))
        else countRange p fuel lo (n / 2) + countRange p fuel (lo + n / 2) (n - n / 2) := by
  simp only [countRange, Nat.ble_eq, Nat.beq_eq]

theorem countRange_spec (p : ℕ → Bool) :
    ∀ fuel lo n, n ≤ 2 ^ fuel → countRange p fuel lo n = (List.range' lo n).countP p := by
  intro fuel
  induction fuel with
  | zero =>
    intro lo n hn
    rw [countRange_zero]
    interval_cases n
    · rfl
    · rw [if_pos rfl]
      show _ = List.countP p [lo]
      rw [List.countP_cons]
      simp [List.countP_nil]
  | succ fuel ih =>
    intro lo n hn
    rw [countRange_succ]
    by_cases h1 : n ≤ 1
    · rw [if_pos h1]
      interval_cases n
      · rfl
      · rw [if_neg (by omega)]
        show _ = List.countP p [lo]
        rw [List.countP_cons]
        simp [List.countP_nil]
    · rw [if_neg h1]
      have hpow : (2:ℕ) ^ (fuel + 1) = 2 ^ fuel + 2 ^ fuel := by
        rw [pow_succ]
        omega
      rw [ih lo (n / 2) (by omega), ih (lo + n / 2) (n - n / 2) (by omega)]
      rw [show List.range' lo n = List.range' lo (n / 2) ++ List.range' (lo + n / 2) (n - n / 2)
        from by
          rw [List.range'_append_1]
          congr 1
          omega]
      rw [List.countP_append]

/- ------------------------------------------------------------------ -/
/- Claim C1: correctness of countPrimes.                              -/
/- ------------------------------------------------------------------ -/

/-- Shared helper: countPrimes computes the prime count of [a, b], for any
density abstraction that is silent at 5. -/
theorem zframework_count_primes_eq_card (dl : ℕ → Bool) (h5 : dl 5 = false)
    (a b : ℕ) (hab : a ≤ b) :
    zframework_count_primes dl a b = ((Finset.Icc a b).filter Nat.Prime).card := by
  unfold zframework_count_primes
  rw [zframework_init_eq_some dl a b hab]
  show count_loop ((zgen_at dl a b 0).frame_size + 1) (zgen_at dl a b 0) 0 = _
  have hfs : (zgen_at dl a b 0).frame_size = b - a + 1 := rfl
  rw [hfs, count_loop_spec dl a b hab (b - a + 1 + 1) 0 0 (by omega) (by omega),
    Nat.sub_zero, countP_zhit_eq dl a b hab h5, Nat.zero_add]

/-- C1: for every range [a,b] with a ≤ b (buffer allocation assumed to
succeed, the double density comparison soundly abstracted by dl at the
default parameters), countPrimes(a,b) returns exactly the number of primes
p with a ≤ p ≤ b; in particular countPrimes(0,1) = 0, countPrimes(1,2) = 1,
countPrimes(1,10) = 4 and countPrimes(2,2) = 1. -/
theorem zframework_count_primes_correct (dl : ℕ → Bool) (hdl : dl_sound dl) :
    (∀ a b : ℕ, a ≤ b →
      zframework_count_primes dl a b = ((Finset.Icc a b).filter Nat.Prime).card)
    ∧ zframework_count_primes dl 0 1 = 0
    ∧ zframework_count_primes dl 1 2 = 1
    ∧ zframework_count_primes dl 1 10 = 4
    ∧ zframework_count_primes dl 2 2 = 1 := by
  have h5 := dl_sound_five dl hdl
  have hmain := zframework_count_primes_eq_card dl h5
  refine ⟨fun a b hab => hmain a b hab, ?_, ?_, ?_, ?_⟩
  · rw [hmain 0 1 (by norm_num)]
    decide
  · rw [hmain 1 2 (by norm_num)]
    decide
  · rw [hmain 1 10 (by norm_num)]
    decide
  · rw [hmain 2 2 (by norm_num)]
    decide

/-- Witness for C1 with the never-low density abstraction. -/
theorem zframework_count_primes_correct_witness :
    zframework_count_primes density_never_low 1 10 = 4
    ∧ zframework_count_primes density_never_low 0 1 = 0
    ∧ zframework_count_primes density_never_low 2 2 = 1 :=
  ⟨(zframework_count_primes_correct density_never_low density_never_low_sound).2.2.2.1,
   (zframework_count_primes_correct density_never_low density_never_low_sound).2.1,
   (zframework_count_primes_correct density_never_low density_never_low_sound).2.2.2.2⟩

/- ------------------------------------------------------------------ -/
/- Claim C2: generatePrimes versus countPrimes.                       -/
/- ------------------------------------------------------------------ -/

/-- Shared helper: the capacity-estimate divisor of generatePrimes(1, 10)
is nonzero (ln 10 ≥ 1 since e ≤ 10). -/
theorem estimate_divisor_1_10_ne_zero : zframework_estimate_divisor 1 10 ≠ 0 := by
  unfold zframework_estimate_divisor
  have h10 : ((10 - 1 + 1 : ℕ) : ℝ) = 10 := by norm_num
  rw [h10]
  have h1 : (1:ℝ) ≤ Real.log 10 := by
    rw [Real.le_log_iff_exp_le (by norm_num)]
    exact le_trans Real.exp_one_lt_d9.le (by norm_num)
  intro h0
  have h2 : (1:ℕ) ≤ ⌊Real.log 10⌋₊ := Nat.le_floor (by exact_mod_cast h1)
  omega

/-- Shared helper: the capacity-estimate divisor of generatePrimes(0, 8103)
is 9, because e⁹ ≤ 8104 < e¹⁰. -/
theorem estimate_divisor_8103 : zframework_estimate_divisor 0 8103 = 9 := by
  unfold zframework_estimate_divisor
  have h84 : ((8103 - 0 + 1 : ℕ) : ℝ) = 8104 := by norm_num
  rw [h84]
  have hexp9 : Real.exp (9:ℝ) ≤ 8104 := by
    have he : Real.exp (9:ℝ) = Real.exp 1 ^ (9:ℕ) := by
      rw [← Real.exp_nat_mul]
      norm_num
    have hp : Real.exp 1 ^ (9:ℕ) ≤ (2.7182818286:ℝ) ^ (9:ℕ) :=
      pow_le_pow_left (Real.exp_pos 1).le Real.exp_one_lt_d9.le 9
    calc Real.exp (9:ℝ) = Real.exp 1 ^ (9:ℕ) := he
    _ ≤ (2.7182818286:ℝ) ^ (9:ℕ) := hp
    _ ≤ 8104 := by norm_num
  have hexp10 : (8104:ℝ) < Real.exp (10:ℝ) := by
    have he : Real.exp (10:ℝ) = Real.exp 1 ^ (10:ℕ) := by
      rw [← Real.exp_nat_mul]
      norm_num
    have hp : (2.7182818283:ℝ) ^ (10:ℕ) < Real.exp 1 ^ (10:ℕ) :=
      pow_lt_pow_left Real.exp_one_gt_d9 (by norm_num) (by norm_num : (10:ℕ) ≠ 0)
    calc (8104:ℝ) < (2.7182818283:ℝ) ^ (10:ℕ) := by norm_num
    _ < Real.exp 1 ^ (10:ℕ) := hp
    _ = Real.exp (10:ℝ) := he.symm
  rw [Nat.floor_eq_iff (Real.log_nonneg (by norm_num))]
  constructor
  · rw [show ((9:ℕ):ℝ) = (9:ℝ) from by norm_num,
      Real.le_log_iff_exp_le (by norm_num)]
    exact hexp9
  · rw [show ((9:ℕ):ℝ) + 1 = (10:ℝ) from by norm_num,
      Real.log_lt_iff_lt_exp (by norm_num)]
    exact hexp10

/-- Shared helper: the estimated capacity of generatePrimes(0, 8103) is
8103 / 9 + 100 = 1000. -/
theorem estimated_count_8103 : zframework_estimated_count 0 8103 = 1000 := by
  unfold zframework_estimated_count
  rw [estimate_divisor_8103]

/-- Shared helper: on a nondegenerate range with nonzero divisor,
generatePrimes returns the list of reportable frame values truncated to the
estimated capacity. -/
theorem zframework_generate_primes_eq (dl : ℕ → Bool) (h5 : dl 5 = false) (a b : ℕ)
    (hab : a ≤ b) (hdiv : zframework_estimate_divisor a b ≠ 0) :
    zframework_generate_primes dl a b
      = some ((((List.range' 0 (b - a + 1)).filter (zhit dl a b)).map
          (fun j => a + j)).take (zframework_estimated_count a b)) := by
  unfold zframework_generate_primes
  rw [if_neg hdiv, zframework_init_eq_some dl a b hab]
  show some (gen_loop (zframework_estimated_count a b)
    ((zgen_at dl a b 0).frame_size + 1) (zgen_at dl a b 0) [] 0) = _
  have hfs : (zgen_at dl a b 0).frame_size = b - a + 1 := rfl
  rw [hfs, gen_loop_spec dl a b (zframework_estimated_count a b) hab
    (b - a + 1 + 1) 0 [] 0 (by omega) (by omega),
    Nat.sub_zero, Nat.sub_zero, List.reverse_nil, List.nil_append]

/-- C2 (amended): whenever the prime count of [a, b] fits inside the
estimated capacity (and the divisor is nonzero so the estimate is defined),
the number of primes generatePrimes returns equals countPrimes(a, b); the
original unconditional claim fails when the capacity estimate is below the
true prime count, since the collection loop stops at the capacity. -/
theorem zframework_generate_primes_size (dl : ℕ → Bool) (hdl : dl_sound dl) (a b : ℕ)
    (hab : a ≤ b) (hdiv : zframework_estimate_divisor a b ≠ 0)
    (hcap : ((Finset.Icc a b).filter Nat.Prime).card ≤ zframework_estimated_count a b) :
    (zframework_generate_primes dl a b).map List.length
      = some (zframework_count_primes dl a b) := by
  have h5 := dl_sound_five dl hdl
  rw [zframework_generate_primes_eq dl h5 a b hab hdiv, Option.map_some',
    zframework_count_primes_eq_card dl h5 a b hab]
  congr 1
  rw [List.length_take, List.length_map, ← List.countP_eq_length_filter,
    countP_zhit_eq dl a b hab h5]
  exact Nat.min_eq_right hcap

/-- Witness for C2 on the range [1, 10]: generatePrimes returns 4 primes,
matching countPrimes. -/
theorem zframework_generate_primes_size_witness :
    (zframework_generate_primes density_never_low 1 10).map List.length = some 4 := by
  have hcard : ((Finset.Icc 1 10).filter Nat.Prime).card = 4 := by decide
  have h := zframework_generate_primes_size density_never_low density_never_low_sound 1 10
    (by norm_num) estimate_divisor_1_10_ne_zero
    (by rw [hcard]; exact le_trans (by norm_num) (Nat.le_add_left 100 _))
  rw [h, zframework_count_primes_eq_card density_never_low
    (dl_sound_five density_never_low density_never_low_sound) 1 10 (by norm_num), hcard]

set_option maxHeartbeats 12000000 in
/-- Shared helper: there are 1019 primes in [0, 8103], computed by the
verified auxiliary counter. -/
theorem card_primes_0_8103 : ((Finset.Icc 0 8103).filter Nat.Prime).card = 1019 := by
  rw [card_Icc_filter_prime]
  have h84 : 8103 + 1 - 0 = 8104 := by norm_num
  rw [h84]
  have h1 : countRange isPrimeB 14 0 8104 = (List.range' 0 8104).countP isPrimeB :=
    countRange_spec isPrimeB 14 0 8104 (by norm_num)
  have h2 : (List.range' 0 8104).countP isPrimeB
      = (List.range' 0 8104).countP (fun n => decide (Nat.Prime n)) :=
    List.countP_congr (fun x _ => by rw [isPrimeB_eq])
  rw [← h2, ← h1]
  decide

/-- C2 counterexample: on the range [0, 8103] there are 1019 primes and
countPrimes returns 1019, but the estimated capacity is
8103 / ⌊ln 8104⌋ + 100 = 8103 / 9 + 100 = 1000, so generatePrimes returns
only 1000 primes: the drained count differs from countPrimes and the last
19 primes are silently dropped. -/
theorem zframework_generate_primes_truncates :
    zframework_count_primes density_never_low 0 8103 = 1019
    ∧ (zframework_generate_primes density_never_low 0 8103).map List.length
        = some 1000 := by
  have h5 := dl_sound_five density_never_low density_never_low_sound
  refine ⟨?_, ?_⟩
  · rw [zframework_count_primes_eq_card density_never_low h5 0 8103 (by norm_num),
      card_primes_0_8103]
  · rw [zframework_generate_primes_eq density_never_low h5 0 8103 (by norm_num)
      (by rw [estimate_divisor_8103]; norm_num), Option.map_some']
    congr 1
    rw [List.length_take, List.length_map, ← List.countP_eq_length_filter,
      countP_zhit_eq density_never_low 0 8103 (by norm_num) h5, card_primes_0_8103,
      estimated_count_8103]
    decide

/- ------------------------------------------------------------------ -/
/- Claim C7: the nextPrime iteration contract.                        -/
/- ------------------------------------------------------------------ -/

/-- C7: for every successfully initialized generator over [a, b] (a ≤ b,
the density comparison soundly abstracted), draining it with successive
nextPrime calls yields a strictly increasing sequence whose members are
exactly the primes of [a, b]; on the drained state nextPrime returns the
sentinel 0 and leaves the state fixed, so every subsequent call also
returns 0. -/
theorem zframework_next_prime_iteration (dl : ℕ → Bool) (hdl : dl_sound dl) (a b : ℕ)
    (hab : a ≤ b) :
    ∃ g, zframework_init dl a b = some g ∧
      ∀ fuel, b - a + 1 < fuel →
        (drain_loop fuel g []).1.Pairwise (fun x y => x < y)
        ∧ (∀ p, p ∈ (drain_loop fuel g []).1 ↔ Nat.Prime p ∧ a ≤ p ∧ p ≤ b)
        ∧ zframework_next_prime (drain_loop fuel g []).2
            = (0, (drain_loop fuel g []).2) := by
  have h5 := dl_sound_five dl hdl
  refine ⟨zgen_at dl a b 0, zframework_init_eq_some dl a b hab, ?_⟩
  intro fuel hfuel
  have hd := drain_loop_spec dl a b hab fuel 0 [] (by omega) (by omega)
  rw [hd]
  dsimp only
  simp only [List.reverse_nil, List.nil_append, Nat.sub_zero]
  refine ⟨?_, ?_, ?_⟩
  · rw [List.pairwise_map]
    have hp : (List.range' 0 (b - a + 1)).Pairwise (fun x y => a + x < a + y) := by
      have hlt := List.pairwise_lt_range' 0 (b - a + 1)
      exact hlt.imp (fun h => by omega)
    exact hp.filter _
  · intro p
    simp only [List.mem_map, List.mem_filter]
    constructor
    · rintro ⟨j, ⟨hjr, hjh⟩, rfl⟩
      have hjlt := List.mem_range'_1.mp hjr
      unfold zhit at hjh
      rw [Bool.and_eq_true] at hjh
      have hprime := (zsieve_true_iff dl a b hab h5 j (by omega)).mp hjh.1
      exact ⟨hprime, by omega, by omega⟩
    · rintro ⟨hp, hap, hpb⟩
      refine ⟨p - a, ⟨List.mem_range'_1.mpr ⟨by omega, by omega⟩, ?_⟩, by omega⟩
      unfold zhit
      rw [Bool.and_eq_true]
      have hpa : a + (p - a) = p := by omega
      constructor
      · rw [zsieve_true_iff dl a b hab h5 (p - a) (by omega), hpa]
        exact hp
      · simp only [decide_eq_true_eq]
        have := hp.two_le
        omega
  · rw [zframework_next_prime_zgen_at, Nat.sub_self, next_prime_loop_zero]

/-- Witness for C7 on the range [1, 10]. -/
theorem zframework_next_prime_iteration_witness :
    ∃ g, zframework_init density_never_low 1 10 = some g ∧
      ∀ fuel, 10 - 1 + 1 < fuel →
        (drain_loop fuel g []).1.Pairwise (fun x y => x < y)
        ∧ (∀ p, p ∈ (drain_loop fuel g []).1 ↔ Nat.Prime p ∧ 1 ≤ p ∧ p ≤ 10)
        ∧ zframework_next_prime (drain_loop fuel g []).2
            = (0, (drain_loop fuel g []).2) :=
  zframework_next_prime_iteration density_never_low density_never_low_sound 1 10
    (by norm_num)
